import Mathlib

/-!
# Shallow embedding of the mongoose-checkpoint Person CRUD service

This file embeds the data model and operations of the repository:

* `src/models/Person.js` — the Person schema: field validators (name,
  age, favoriteFoods, email), setters (trim, lowercase), the sparse
  unique index on `email`, and the instance method `addFavoriteFood`.
* `src/services/personService.js` — the service operations
  `createAndSavePerson`, `createManyPeople`, `updatePersonClassic`,
  `addHamburgerToFavorites`, `findOneAndUpdateAge`, `deletePersonById`,
  `deleteManyByName`, `findBurritoLovers`, `getStats`.
* `src/seed.js` — the ten fixed sample records and the seeding routine.

The MongoDB collection is a list of records plus a fresh-id counter.
Each stateful operation takes the collection state and returns the new
state together with an `Except` mirroring promise resolution/rejection.
Document ids are modelled as `Nat`; the JS falsy-argument guards on id
parameters (`if (!personId) throw`) concern an absent argument, which a
total `Nat` argument cannot be, so they are not represented; the guards
on string arguments (`if (!name) throw`) are represented as tests
against the empty string.
-/

namespace MongooseCheckpoint

/-- A persisted Person document (`src/models/Person.js`).
`age` and `email` are nullable; timestamps are omitted (real time). -/
structure Person where
  id : Nat
  name : String
  age : Option Int
  favoriteFoods : List String
  email : Option String
  isActive : Bool
deriving DecidableEq, Repr

/-- The collection state: the stored documents in insertion order and
the next fresh document id. -/
structure DB where
  people : List Person
  nextId : Nat
deriving DecidableEq, Repr

/-! ## String setters (mongoose `trim: true`, `lowercase: true`) -/

/-- Whitespace-trimming of a character list from both ends. -/
def trimChars (cs : List Char) : List Char :=
  ((cs.dropWhile Char.isWhitespace).reverse.dropWhile Char.isWhitespace).reverse

/-- `trim: true` setter: remove whitespace from both ends. -/
def jsTrim (s : String) : String := ⟨trimChars s.data⟩

/-- `lowercase: true` setter. -/
def jsToLower (s : String) : String := ⟨s.data.map Char.toLower⟩

/-- The stored form of an email: lowercased and trimmed by the schema
setters on assignment. -/
def normalizeEmail (s : String) : String := jsToLower (jsTrim s)

/-! ## Schema validators (`src/models/Person.js`) -/

/-- A character accepted by the name pattern `[a-zA-Z\s]`. -/
def isNameChar (c : Char) : Bool := c.isAlpha || c.isWhitespace

/-- Validator for `name`: required (non-empty after trimming),
minlength 2, maxlength 100, and the pattern `^[a-zA-Z\s]{2,100}$`. -/
def nameOk (s : String) : Bool :=
  (s != "") && decide (2 ≤ s.length) && decide (s.length ≤ 100) && s.data.all isNameChar

/-- Validator for `age`: absent (null) or between 0 and 120. -/
def ageOk : Option Int → Bool
  | none => true
  | some a => decide (0 ≤ a) && decide (a ≤ 120)

/-- Validator for one favoriteFoods entry: length between 2 and 50. -/
def foodOk (f : String) : Bool := decide (2 ≤ f.length) && decide (f.length ≤ 50)

/-- Validator for `favoriteFoods`: each entry valid and at most 20. -/
def foodsOk (fs : List String) : Bool := fs.all foodOk && decide (fs.length ≤ 20)

/-! ### The email pattern `^\w+([\.-]?\w+)*@\w+([\.-]?\w+)*(\.\w{2,3})+$` -/

/-- A `\w` word character. -/
def isWordChar (c : Char) : Bool := c.isAlphanum || c == '_'

/-- Matches the tail of `\w+([\.-]?\w+)*` after an initial word
character: word characters in blocks, separated by single `.` or `-`. -/
def wordTail : List Char → Bool
  | [] => true
  | c :: cs =>
    if isWordChar c then wordTail cs
    else if c == '.' || c == '-' then
      match cs with
      | [] => false
      | d :: ds => isWordChar d && wordTail ds
    else false

/-- Matches `\w+([\.-]?\w+)*`. -/
def wordSeq : List Char → Bool
  | [] => false
  | c :: cs => isWordChar c && wordTail cs

/-- Matches the rest of `(\.\w{2,3})+` after a group's first two word
characters: end of input, an optional third word character, then
either end of input or a further `\.\w{2,3}` group. -/
def tldRest : List Char → Bool
  | [] => true
  | c :: rest =>
    if isWordChar c then
      match rest with
      | [] => true
      | '.' :: a :: b :: r2 => isWordChar a && isWordChar b && tldRest r2
      | _ => false
    else
      match c, rest with
      | '.', a :: b :: r2 => isWordChar a && isWordChar b && tldRest r2
      | _, _ => false

/-- Matches `(\.\w{2,3})+`. -/
def tldGroups : List Char → Bool
  | '.' :: a :: b :: rest => isWordChar a && isWordChar b && tldRest rest
  | _ => false

/-- Matches `\w+([\.-]?\w+)*(\.\w{2,3})+` by trying every split between
the word sequence and the final dotted groups. -/
def domainMatch (cs : List Char) : Bool :=
  (List.range (cs.length + 1)).any fun i =>
    wordSeq (cs.take i) && tldGroups (cs.drop i)

/-- Matches the whole email pattern, splitting at the `@`. -/
def emailMatch (cs : List Char) : Bool :=
  (List.range (cs.length + 1)).any fun i =>
    wordSeq (cs.take i) &&
      (match cs.drop i with
       | '@' :: rest => domainMatch rest
       | _ => false)

/-- Validator for `email`: absent, empty (mongoose `match` skips the
empty string), or matching the email pattern. -/
def emailOk : Option String → Bool
  | none => true
  | some e => (e == "") || emailMatch e.data

/-- Full document validation, as run by `save` on every path. -/
def validatePerson (p : Person) : Bool :=
  nameOk p.name && ageOk p.age && foodsOk p.favoriteFoods && emailOk p.email

/-! ## The sparse unique index on `email` -/

/-- Whether some stored document already holds this email value. -/
def emailTaken (db : DB) : Option String → Bool
  | none => false
  | some v => db.people.any fun q => q.email == some v

/-- Whether a document other than `selfId` holds this email value. -/
def emailTakenByOther (db : DB) (selfId : Nat) : Option String → Bool
  | none => false
  | some v => db.people.any fun q => (q.id != selfId) && (q.email == some v)

/-! ## Persistence primitives -/

/-- Append a new document and advance the fresh-id counter. -/
def insertPerson (db : DB) (p : Person) : DB :=
  ⟨db.people ++ [p], db.nextId + 1⟩

/-- Replace the stored document carrying `p.id` by `p`. -/
def replacePerson (db : DB) (p : Person) : DB :=
  ⟨db.people.map fun q => if q.id = p.id then p else q, db.nextId⟩

/-- `document.save()` for a new document: schema validation plus the
unique email index; on failure the state is unchanged and the promise
rejects. -/
def saveNew (db : DB) (p : Person) : DB × Except String Person :=
  if validatePerson p && !emailTaken db p.email then
    (insertPerson db p, Except.ok p)
  else (db, Except.error "save failed")

/-- `document.save()` for an already-stored document. -/
def saveExisting (db : DB) (p : Person) : DB × Except String Person :=
  if validatePerson p && !emailTakenByOther db p.id p.email then
    (replacePerson db p, Except.ok p)
  else (db, Except.error "save failed")

/-! ## Service operations (`src/services/personService.js`) -/

/-- The caller-supplied data object: each field may be absent. -/
structure PersonInput where
  name : Option String
  age : Option Int
  favoriteFoods : Option (List String)
  email : Option String
  isActive : Option Bool
deriving DecidableEq, Repr

/-- `personData.age || null`: the age 0 is falsy in JS, so it collapses
to null. -/
def jsOrNullAge : Option Int → Option Int
  | some v => if v = 0 then none else some v
  | none => none

/-- `personData.email || null`: the empty string is falsy. -/
def jsOrNullEmail : Option String → Option String
  | some e => if e = "" then none else some e
  | none => none

/-- Operation 1, `createAndSavePerson`: reject a falsy name, build the
document (age/email coerced through `|| null`, favoriteFoods defaulted
to `[]`, isActive defaulted to true, setters applied), then save. -/
def createAndSavePerson (db : DB) (pd : PersonInput) : DB × Except String Person :=
  match pd.name with
  | none => (db, Except.error "Name is required to create a person")
  | some n =>
    if n = "" then (db, Except.error "Name is required to create a person")
    else
      saveNew db
        ⟨db.nextId, jsTrim n, jsOrNullAge pd.age,
          (pd.favoriteFoods.getD []).map jsTrim,
          (jsOrNullEmail pd.email).map normalizeEmail,
          pd.isActive.getD true⟩

/-- Document construction in `Person.create`: raw fields with schema
defaults and setters, no `|| null` coercion. -/
def buildDoc (id : Nat) (pd : PersonInput) : Person :=
  ⟨id, jsTrim (pd.name.getD ""), pd.age,
    (pd.favoriteFoods.getD []).map jsTrim,
    pd.email.map normalizeEmail,
    pd.isActive.getD true⟩

/-- One document of `Person.create(array)`. -/
def createOne (db : DB) (pd : PersonInput) : DB × Except String Person :=
  saveNew db (buildDoc db.nextId pd)

/-- `Person.create(array)` saves the documents in order and stops at
the first failure (earlier documents stay persisted). -/
def createManyGo : DB → List PersonInput → List Person → DB × Except String (List Person)
  | db, [], acc => (db, Except.ok acc.reverse)
  | db, pd :: rest, acc =>
    match createOne db pd with
    | (db', Except.ok p) => createManyGo db' rest (p :: acc)
    | (db', Except.error e) => (db', Except.error e)

/-- Operation 2, `createManyPeople`: rejects an empty array, then
delegates to `Person.create`. -/
def createManyPeople (db : DB) (pds : List PersonInput) : DB × Except String (List Person) :=
  if pds.isEmpty then (db, Except.error "arrayOfPeople must be a non-empty array")
  else createManyGo db pds []

/-- `Person.findById`. -/
def findById (db : DB) (personId : Nat) : Option Person :=
  db.people.find? fun p => p.id == personId

/-- The `updates` object taken by `updatePersonClassic`: an outer
`none` means the field is absent (`undefined`). -/
structure Updates where
  name : Option String
  age : Option (Option Int)
  email : Option (Option String)
  isActive : Option Bool
  addToFavorites : Option (List String)
deriving DecidableEq, Repr

/-- The `addToFavorites` loop: push each food not already present
(the array setter trims the pushed value). -/
def addUniqueFoods (favs foods : List String) : List String :=
  foods.foldl (fun acc food => if acc.contains food then acc else acc ++ [jsTrim food]) favs

/-- Field merging in `updatePersonClassic`: a truthy `name` replaces
the name; `age`, `email`, `isActive` replace when defined; then the
`addToFavorites` loop. -/
def applyUpdates (p : Person) (u : Updates) : Person :=
  let p1 := match u.name with
    | some n => if n = "" then p else { p with name := jsTrim n }
    | none => p
  let p2 := match u.age with
    | some a => { p1 with age := a }
    | none => p1
  let p3 := match u.email with
    | some e => { p2 with email := e.map normalizeEmail }
    | none => p2
  let p4 := match u.isActive with
    | some b => { p3 with isActive := b }
    | none => p3
  match u.addToFavorites with
  | some foods => { p4 with favoriteFoods := addUniqueFoods p4.favoriteFoods foods }
  | none => p4

/-- Operation 6, `updatePersonClassic`: find by id — rejecting when the
id is not found — merge the updates in memory, and save. -/
def updatePersonClassic (db : DB) (personId : Nat) (u : Updates) : DB × Except String Person :=
  match findById db personId with
  | none => (db, Except.error ("Person with ID not found"))
  | some p => saveExisting db (applyUpdates p u)

/-- Operation 7, `addHamburgerToFavorites`: delegate to
`updatePersonClassic` with `{ addToFavorites: ["hamburger"] }`. -/
def addHamburgerToFavorites (db : DB) (personId : Nat) : DB × Except String Person :=
  updatePersonClassic db personId ⟨none, none, none, none, some ["hamburger"]⟩

/-- Instance method `addFavoriteFood` on a stored document: if the food
is already present, resolve with the document unchanged; otherwise push
and save. -/
def addFavoriteFood (db : DB) (p : Person) (food : String) : DB × Except String Person :=
  if p.favoriteFoods.contains food then (db, Except.ok p)
  else saveExisting db { p with favoriteFoods := p.favoriteFoods ++ [jsTrim food] }

/-- Operation 8, `findOneAndUpdateAge`: reject a falsy name; then a
single `findOneAndUpdate` on the name setting the age, with the update
validators (`runValidators: true`) run on the client on the updated
path before the query is sent — an out-of-range age rejects whether or
not anything matches; otherwise the post-update document is returned
(`new: true`), or null when nothing matches. -/
def findOneAndUpdateAge (db : DB) (personName : String) (newAge : Int) :
    DB × Except String (Option Person) :=
  if personName = "" then (db, Except.error "personName is required")
  else if !ageOk (some newAge) then (db, Except.error "validation failed")
  else
    match db.people.find? (fun p => p.name == personName) with
    | none => (db, Except.ok none)
    | some p =>
      (replacePerson db { p with age := some newAge },
        Except.ok (some { p with age := some newAge }))

/-- Operation 9, `deletePersonById` (`findByIdAndRemove`): resolves
null when the id is not found, otherwise removes and resolves the
removed document. -/
def deletePersonById (db : DB) (personId : Nat) : DB × Except String (Option Person) :=
  match findById db personId with
  | none => (db, Except.ok none)
  | some p => (⟨db.people.eraseP (fun q => q.id == personId), db.nextId⟩, Except.ok (some p))

/-- Operation 10, `deleteManyByName`: reject a falsy name; otherwise
remove every document with that exact name and resolve with the
deletion statistics (`deletedCount`). -/
def deleteManyByName (db : DB) (name : String) : DB × Except String Nat :=
  if name = "" then (db, Except.error "Name is required for deletion")
  else
    (⟨db.people.filter (fun p => p.name != name), db.nextId⟩,
      Except.ok (db.people.countP (fun p => p.name == name)))

/-! ## The chained query (operation 11) -/

/-- Byte-order comparison of two strings as the server sorts them,
as an executable lexicographic comparison on code points. -/
def charListLe : List Char → List Char → Bool
  | [], _ => true
  | _ :: _, [] => false
  | a :: as, b :: bs =>
    if a.toNat < b.toNat then true
    else if b.toNat < a.toNat then false
    else charListLe as bs

/-- String ordering used by `.sort({ name: 1 })`. -/
def strLe (a b : String) : Bool := charListLe a.data b.data

/-- A query result document under a projection: absent fields are
`none`. The document id is always returned. -/
structure OutDoc where
  id : Nat
  name : Option String
  age : Option Int
  favoriteFoods : Option (List String)
  email : Option String
  isActive : Option Bool
deriving DecidableEq, Repr

/-- The projection specification a query accumulates: for each
schema field, `some true` marks an inclusion (`field: 1`) and
`some false` an exclusion (`field: 0`). -/
structure Projection where
  age : Option Bool
  name : Option Bool
  favoriteFoods : Option Bool
  email : Option Bool
  isActive : Option Bool
deriving DecidableEq, Repr

/-- The projection of a fresh query: no `.select` applied yet. -/
def noProjection : Projection := ⟨none, none, none, none, none⟩

/-- `.select('-age')` merges the age exclusion into the accumulated
projection (mongoose `select` adds to the fields, it never resets). -/
def selectMinusAge (pr : Projection) : Projection := { pr with age := some false }

/-- `.select('name favoriteFoods')` merges the two inclusions into the
accumulated projection. -/
def selectNameFoods (pr : Projection) : Projection :=
  { pr with name := some true, favoriteFoods := some true }

/-- The projection built by `.select('-age').select('name
favoriteFoods')`: the merged `{age: 0, name: 1, favoriteFoods: 1}`. -/
def burritoProjection : Projection := selectNameFoods (selectMinusAge noProjection)

/-- The per-field entries of a projection. -/
def Projection.entries (pr : Projection) : List (Option Bool) :=
  [pr.age, pr.name, pr.favoriteFoods, pr.email, pr.isActive]

/-- Whether the projection includes some field. -/
def Projection.hasIncl (pr : Projection) : Bool := pr.entries.any (· == some true)

/-- Whether the projection excludes some field. -/
def Projection.hasExcl (pr : Projection) : Bool := pr.entries.any (· == some false)

/-- The server accepts a projection only if it does not mix exclusion
into an inclusion projection (only `_id` may be excluded there). -/
def Projection.valid (pr : Projection) : Bool := !(pr.hasIncl && pr.hasExcl)

/-- Whether a field with this entry is returned: in inclusion mode
only included fields, otherwise everything not excluded. -/
def Projection.keeps (pr : Projection) (entry : Option Bool) : Bool :=
  if pr.hasIncl then entry == some true else !(entry == some false)

/-- Apply an accepted projection to a stored document; the id is
always returned. -/
def applyProjection (pr : Projection) (p : Person) : OutDoc :=
  ⟨p.id,
    if pr.keeps pr.name then some p.name else none,
    if pr.keeps pr.age then p.age else none,
    if pr.keeps pr.favoriteFoods then some p.favoriteFoods else none,
    if pr.keeps pr.email then p.email else none,
    if pr.keeps pr.isActive then some p.isActive else none⟩

/-- Operation 11, `findBurritoLovers`: filter on a favorite food, sort
by name ascending, limit to 2, and return under the projection
accumulated by the two chained `.select` calls — which the server
rejects when it mixes exclusion into an inclusion projection. -/
def findBurritoLovers (db : DB) (food : String) : Except String (List OutDoc) :=
  if burritoProjection.valid then
    Except.ok ((((db.people.filter fun p => p.favoriteFoods.contains food).mergeSort
      fun a b => strLe a.name b.name).take 2).map (applyProjection burritoProjection))
  else Except.error "Cannot do exclusion on field age in inclusion projection"

/-! ## Statistics and seeding -/

/-- The summary returned by `getStats`; the average is exact
(the concrete values involved are exact in double precision too). -/
structure Stats where
  totalPeople : Nat
  activePeople : Nat
  averageAge : Rat
deriving DecidableEq, Repr

/-- `getStats`: total count, active count, and the average age over the
documents whose age is non-null (`$match {age: {$ne: null}}` then
`$avg`); 0 when no document has an age. -/
def getStats (db : DB) : Stats :=
  let matched := db.people.filter fun p => p.age.isSome
  let avg : Rat :=
    if matched.length = 0 then 0
    else ((matched.foldl (fun s p => s + p.age.getD 0) (0 : Int) : Int) : Rat) / (matched.length : Rat)
  ⟨db.people.length, (db.people.filter fun p => p.isActive).length, avg⟩

/-- The ten fixed sample records of `src/seed.js`. -/
def samplePeople : List PersonInput :=
  [⟨some "John Smith", some 28, some ["pizza", "burgers", "pasta"],
      some "john.smith@example.com", some true⟩,
   ⟨some "Emma Johnson", some 32, some ["sushi", "salad", "burrito"],
      some "emma.johnson@example.com", some true⟩,
   ⟨some "Michael Brown", some 45, some ["steak", "potatoes", "burrito"],
      some "michael.brown@example.com", some true⟩,
   ⟨some "Sarah Davis", some 22, some ["tacos", "ice cream", "pizza"],
      some "sarah.davis@example.com", some true⟩,
   ⟨some "Robert Wilson", some 38, some ["chicken", "rice", "vegetables"],
      some "robert.wilson@example.com", some false⟩,
   ⟨some "Mary Thompson", some 29, some ["pasta", "wine", "cheese"],
      some "mary.thompson@example.com", some true⟩,
   ⟨some "David Miller", some 51, some ["seafood", "soup", "bread"],
      some "david.miller@example.com", some true⟩,
   ⟨some "Lisa Anderson", some 26, some ["burrito", "nachos", "guacamole"],
      some "lisa.anderson@example.com", some true⟩,
   ⟨some "James Taylor", some 33, some ["bbq", "corn", "beans"],
      some "james.taylor@example.com", some true⟩,
   ⟨some "Mary Johnson", some 41, some ["soup", "sandwich", "fruit"],
      some "mary.johnson@example.com", some true⟩]

/-- `seedDatabase`: clear the collection (`deleteMany({})`), then
insert the ten sample records with `Person.create`. -/
def seedDatabase (db : DB) : DB :=
  (createManyPeople ⟨[], db.nextId⟩ samplePeople).1

/-! ## Concrete fixtures (from `src/index.js`) -/

/-- The first record inserted by the demo driver. -/
def johnDoeInput : PersonInput :=
  ⟨some "John Doe", some 30, some ["pizza", "pasta"], some "john@example.com", none⟩

/-- The collection after inserting the John Doe record into an empty
collection. -/
def dbJohn : DB := (createAndSavePerson ⟨[], 0⟩ johnDoeInput).1

/-! ## Theorems -/

/-- `addUniqueFoods` leaves the list unchanged when the food is
already present. -/
theorem addUniqueFoods_mem {favs : List String} {food : String}
    (h : food ∈ favs) : addUniqueFoods favs [food] = favs := by
  simp [addUniqueFoods, h]

/-- C3: for every record and food already present in its
favoriteFoods, appending that food — through the `addToFavorites`
loop, the `addFavoriteFood` instance method, or the whole
`updatePersonClassic` operation — leaves favoriteFoods unchanged:
the append is idempotent and introduces no duplicate. -/
theorem append_present_food_idempotent :
    (∀ favs food, food ∈ favs → addUniqueFoods favs [food] = favs) ∧
    (∀ db p food, food ∈ p.favoriteFoods → addFavoriteFood db p food = (db, Except.ok p)) ∧
    (∀ db personId food p db' p',
      findById db personId = some p → food ∈ p.favoriteFoods →
      updatePersonClassic db personId ⟨none, none, none, none, some [food]⟩ =
        (db', Except.ok p') →
      p'.favoriteFoods = p.favoriteFoods) := by
  refine ⟨fun favs food h => addUniqueFoods_mem h, ?_, ?_⟩
  · intro db p food h
    simp [addFavoriteFood, h]
  · intro db personId food p db' p' hfind hmem heq
    have happ : applyUpdates p ⟨none, none, none, none, some [food]⟩ = p := by
      simp [applyUpdates, addUniqueFoods_mem hmem]
    simp only [updatePersonClassic, hfind] at heq
    rw [happ, saveExisting] at heq
    split at heq
    · simp only [Prod.mk.injEq, Except.ok.injEq] at heq
      rw [← heq.2]
    · simp at heq

/-- Witness for C3 at concrete inputs. -/
theorem append_present_food_idempotent_witness :
    addUniqueFoods ["pizza", "pasta"] ["pizza"] = ["pizza", "pasta"] ∧
    addFavoriteFood ⟨[], 0⟩ ⟨0, "John Doe", some 30, ["pizza", "pasta"], none, true⟩ "pasta" =
      (⟨[], 0⟩, Except.ok ⟨0, "John Doe", some 30, ["pizza", "pasta"], none, true⟩) :=
  ⟨append_present_food_idempotent.1 _ "pizza" (by decide),
   append_present_food_idempotent.2.1 _ _ "pasta" (by decide)⟩

/-- The demo record after the hamburger append. -/
def johnWithHamburger : Person :=
  ⟨0, "John Doe", some 30, ["pizza", "pasta", "hamburger"], some "john@example.com", true⟩

/-- C4: `addHamburgerToFavorites` is exactly `updatePersonClassic`
with `{ addToFavorites: ["hamburger"] }`, and on the demo record
(name John Doe, age 30, foods pizza/pasta) it yields
favoriteFoods `[pizza, pasta, hamburger]` in that order. -/
theorem addHamburger_refines_updateClassic :
    (∀ db personId, addHamburgerToFavorites db personId =
        updatePersonClassic db personId ⟨none, none, none, none, some ["hamburger"]⟩) ∧
    (addHamburgerToFavorites dbJohn 0).2 = Except.ok johnWithHamburger ∧
    johnWithHamburger.favoriteFoods = ["pizza", "pasta", "hamburger"] :=
  ⟨fun _ _ => rfl, rfl, rfl⟩

/-- C9: after seeding the ten fixed sample records, the non-null ages
are exactly the ten provided ages and `getStats` reports their exact
arithmetic mean 34.5. -/
theorem getStats_seed_average (db : DB) :
    ((seedDatabase db).people.filter fun p => p.age.isSome).map (fun p => p.age) =
      [some 28, some 32, some 45, some 22, some 38, some 29, some 51, some 26,
        some 33, some 41] ∧
    (getStats (seedDatabase db)).averageAge = (69 : Rat) / 2 ∧
    (69 : Rat) / 2 = (28 + 32 + 45 + 22 + 38 + 29 + 51 + 26 + 33 + 41 : Rat) / 10 := by
  refine ⟨rfl, ?_, by norm_num⟩
  have h : (getStats (seedDatabase db)).averageAge = ((345 : Int) : Rat) / ((10 : Nat) : Rat) := rfl
  rw [h]; norm_num

/-- C10: `createAndSavePerson` coerces a supplied age of 0 — though
schema-valid — to null via `personData.age || null`; a nonzero
(truthy) age is persisted as given. -/
theorem createAndSave_age_falsy (db : DB) (pd : PersonInput) :
    ageOk (some 0) = true ∧
    (pd.age = some 0 →
      ∀ db' p, createAndSavePerson db pd = (db', Except.ok p) → p.age = none) ∧
    (∀ v : Int, pd.age = some v → v ≠ 0 →
      ∀ db' p, createAndSavePerson db pd = (db', Except.ok p) → p.age = some v) := by
  refine ⟨rfl, ?_, ?_⟩
  · intro h0 db' p heq
    cases hn : pd.name with
    | none => simp [createAndSavePerson, hn] at heq
    | some n =>
      simp only [createAndSavePerson, hn] at heq
      by_cases hne : n = ""
      · simp [hne] at heq
      · rw [if_neg hne, saveNew] at heq
        split at heq
        · simp only [Prod.mk.injEq, Except.ok.injEq] at heq
          rw [← heq.2]
          simp [jsOrNullAge, h0]
        · simp at heq
  · intro v hv hv0 db' p heq
    cases hn : pd.name with
    | none => simp [createAndSavePerson, hn] at heq
    | some n =>
      simp only [createAndSavePerson, hn] at heq
      by_cases hne : n = ""
      · simp [hne] at heq
      · rw [if_neg hne, saveNew] at heq
        split at heq
        · simp only [Prod.mk.injEq, Except.ok.injEq] at heq
          rw [← heq.2]
          simp [jsOrNullAge, hv, hv0]
        · simp at heq

/-- A create input carrying the falsy age 0. -/
def inputAgeZero : PersonInput := ⟨some "Jane Roe", some 0, none, none, none⟩

/-- The record persisted from `inputAgeZero`. -/
def personAgeZeroSaved : Person := ⟨0, "Jane Roe", none, [], none, true⟩

/-- The record persisted from the demo John Doe input. -/
def johnDoePerson : Person :=
  ⟨0, "John Doe", some 30, ["pizza", "pasta"], some "john@example.com", true⟩

/-- Witness for C10 at concrete inputs. -/
theorem createAndSave_age_falsy_witness :
    personAgeZeroSaved.age = none ∧ johnDoePerson.age = some 30 :=
  ⟨(createAndSave_age_falsy ⟨[], 0⟩ inputAgeZero).2.1 rfl ⟨[personAgeZeroSaved], 1⟩
      personAgeZeroSaved rfl,
   (createAndSave_age_falsy ⟨[], 0⟩ johnDoeInput).2.2 30 rfl (by decide) ⟨[johnDoePerson], 1⟩
      johnDoePerson rfl⟩

/-- Transitivity of the lexicographic comparison. -/
theorem charListLe_trans : ∀ as bs cs, charListLe as bs = true → charListLe bs cs = true →
    charListLe as cs = true
  | [], _, _, _, _ => rfl
  | _ :: _, [], _, hab, _ => by simp [charListLe] at hab
  | _ :: _, _ :: _, [], _, hbc => by simp [charListLe] at hbc
  | a :: as, b :: bs, c :: cs, hab, hbc => by
    simp only [charListLe] at hab hbc ⊢
    rcases Nat.lt_trichotomy a.toNat b.toNat with h1 | h1 | h1 <;>
      rcases Nat.lt_trichotomy b.toNat c.toNat with h2 | h2 | h2
    · simp [show a.toNat < c.toNat by omega]
    · simp [show a.toNat < c.toNat by omega]
    · simp [show ¬ b.toNat < c.toNat by omega, show c.toNat < b.toNat by omega] at hbc
    · simp [show a.toNat < c.toNat by omega]
    · have hab' : charListLe as bs = true := by
        simpa [show ¬ a.toNat < b.toNat by omega, show ¬ b.toNat < a.toNat by omega] using hab
      have hbc' : charListLe bs cs = true := by
        simpa [show ¬ b.toNat < c.toNat by omega, show ¬ c.toNat < b.toNat by omega] using hbc
      simp [show ¬ a.toNat < c.toNat by omega, show ¬ c.toNat < a.toNat by omega,
        charListLe_trans as bs cs hab' hbc']
    · simp [show ¬ b.toNat < c.toNat by omega, show c.toNat < b.toNat by omega] at hbc
    · simp [show ¬ a.toNat < b.toNat by omega, show b.toNat < a.toNat by omega] at hab
    · simp [show ¬ a.toNat < b.toNat by omega, show b.toNat < a.toNat by omega] at hab
    · simp [show ¬ a.toNat < b.toNat by omega, show b.toNat < a.toNat by omega] at hab

/-- Totality of the lexicographic comparison. -/
theorem charListLe_total : ∀ as bs, (charListLe as bs || charListLe bs as) = true
  | [], _ => by simp [charListLe]
  | _ :: _, [] => by simp [charListLe]
  | a :: as, b :: bs => by
    simp only [charListLe]
    rcases Nat.lt_trichotomy a.toNat b.toNat with h | h | h
    · simp [h]
    · simpa [show ¬ a.toNat < b.toNat by omega, show ¬ b.toNat < a.toNat by omega] using
        charListLe_total as bs
    · simp [h, show ¬ a.toNat < b.toNat by omega]

/-- Transitivity of `strLe`. -/
theorem strLe_trans {a b c : String} (hab : strLe a b = true) (hbc : strLe b c = true) :
    strLe a c = true :=
  charListLe_trans a.data b.data c.data hab hbc

/-- Totality of `strLe`. -/
theorem strLe_total (a b : String) : (strLe a b || strLe b a) = true :=
  charListLe_total a.data b.data

/-- C1: the claim says the chained query resolves with at most 2
records, ordered by name ascending, projected to name and
favoriteFoods — as the code comments themselves intend; but the two
chained `.select` calls merge into the mixed projection
`{age: 0, name: 1, favoriteFoods: 1}`, which the server rejects, so
the operation rejects on every input — evaluated in particular on the
seeded collection with the default food. -/
theorem findBurritoLovers_rejects :
    burritoProjection = ⟨some false, some true, some true, none, none⟩ ∧
    burritoProjection.valid = false ∧
    (∀ db food, findBurritoLovers db food =
      Except.error "Cannot do exclusion on field age in inclusion projection") ∧
    findBurritoLovers (seedDatabase ⟨[], 0⟩) "burrito" =
      Except.error "Cannot do exclusion on field age in inclusion projection" :=
  ⟨rfl, rfl, fun _ _ => rfl, rfl⟩

/-- Trimming never lengthens a string. -/
theorem jsTrim_length_le (s : String) : (jsTrim s).length ≤ s.length := by
  show (trimChars s.data).length ≤ s.data.length
  unfold trimChars
  rw [List.length_reverse]
  exact le_trans (List.dropWhile_sublist _).length_le
    (by simpa using (List.dropWhile_sublist (p := Char.isWhitespace) (l := s.data)).length_le)

/-- A non-whitespace character survives `dropWhile isWhitespace`. -/
theorem mem_dropWhile_of_not_ws : ∀ (l : List Char) (c : Char), c ∈ l →
    c.isWhitespace = false → c ∈ l.dropWhile Char.isWhitespace := by
  intro l c hc hw
  induction l with
  | nil => cases hc
  | cons a l ih =>
    rw [List.dropWhile_cons]
    by_cases ha : a.isWhitespace
    · rw [if_pos ha]
      rcases List.mem_cons.mp hc with rfl | h
      · rw [hw] at ha; cases ha
      · exact ih h
    · rw [if_neg ha]; exact hc

/-- A non-whitespace character survives trimming. -/
theorem mem_trimChars {cs : List Char} {c : Char} (hc : c ∈ cs)
    (hw : c.isWhitespace = false) : c ∈ trimChars cs := by
  unfold trimChars
  rw [List.mem_reverse]
  apply mem_dropWhile_of_not_ws
  · rw [List.mem_reverse]; exact mem_dropWhile_of_not_ws _ _ hc hw
  · exact hw

/-- A digit is neither a name character nor whitespace. -/
theorem digit_not_nameChar {c : Char} (h : c.isDigit = true) :
    isNameChar c = false ∧ c.isWhitespace = false := by
  simp only [Char.isDigit, Bool.and_eq_true, decide_eq_true_eq] at h
  obtain ⟨h1, h2⟩ := h
  have hn1 : (48 : Nat) ≤ c.val.toNat := h1
  have hn2 : c.val.toNat ≤ 57 := h2
  have hws : c.isWhitespace = false := by
    simp only [Char.isWhitespace, Bool.or_eq_false_iff, decide_eq_false_iff_not]
    refine ⟨⟨⟨?_, ?_⟩, ?_⟩, ?_⟩ <;> intro hx <;> subst hx <;> exact absurd hn1 (by decide)
  have halpha : c.isAlpha = false := by
    simp only [Char.isAlpha, Char.isUpper, Char.isLower, Bool.or_eq_false_iff,
      Bool.and_eq_false_iff, decide_eq_false_iff_not]
    constructor
    · left; intro hx; have : (65 : Nat) ≤ c.val.toNat := hx; omega
    · left; intro hx; have : (97 : Nat) ≤ c.val.toNat := hx; omega
  refine ⟨?_, hws⟩
  simp [isNameChar, halpha, hws]

/-- C6: an insert whose name is shorter than 2 characters or contains
a digit is rejected by the name validator and persists nothing. -/
theorem create_invalid_name_rejected (db : DB) (pd : PersonInput) (nm : String)
    (hn : pd.name = some nm)
    (h : nm.length < 2 ∨ nm.data.any Char.isDigit = true) :
    (createAndSavePerson db pd).1 = db ∧
    ∃ msg, (createAndSavePerson db pd).2 = Except.error msg := by
  by_cases hne : nm = ""
  · simp [createAndSavePerson, hn, hne]
  · have hname : nameOk (jsTrim nm) = false := by
      cases hx : nameOk (jsTrim nm)
      · rfl
      · exfalso
        have hx' := hx
        simp only [nameOk, Bool.and_eq_true, decide_eq_true_eq, bne_iff_ne, ne_eq,
          List.all_eq_true] at hx'
        rcases h with hlen | hdig
        · have h2 : (jsTrim nm).length < 2 := lt_of_le_of_lt (jsTrim_length_le nm) hlen
          have h3 := hx'.1.1.2
          omega
        · obtain ⟨c, hcmem, hcdig⟩ := by simpa [List.any_eq_true] using hdig
          obtain ⟨hcname, hcws⟩ := digit_not_nameChar hcdig
          have hcin : c ∈ (jsTrim nm).data := mem_trimChars hcmem hcws
          have := hx'.2 c hcin
          rw [hcname] at this
          cases this
    have hval : ∀ ag fv em ia, validatePerson ⟨db.nextId, jsTrim nm, ag, fv, em, ia⟩ = false := by
      intro ag fv em ia
      simp [validatePerson, hname]
    simp only [createAndSavePerson, hn]
    rw [if_neg hne, saveNew]
    rw [show validatePerson ⟨db.nextId, jsTrim nm, jsOrNullAge pd.age,
        (pd.favoriteFoods.getD []).map jsTrim, (jsOrNullEmail pd.email).map normalizeEmail,
        pd.isActive.getD true⟩ = false from hval _ _ _ _]
    simp

/-- Witness for C6 at concrete inputs. -/
theorem create_invalid_name_rejected_witness :
    (createAndSavePerson ⟨[], 0⟩ ⟨some "J3", none, none, none, none⟩).1 = ⟨[], 0⟩ ∧
    ∃ msg, (createAndSavePerson ⟨[], 0⟩ ⟨some "J3", none, none, none, none⟩).2 =
      Except.error msg :=
  create_invalid_name_rejected ⟨[], 0⟩ ⟨some "J3", none, none, none, none⟩ "J3" rfl
    (Or.inr (by decide))

/-- Counterexample to C2 as stated: id 0 exists in `dbJohn`, yet the
read-modify-write update with an out-of-range age rejects instead of
resolving with the updated record. -/
theorem updatePersonClassic_not_always_resolves :
    (findById dbJohn 0).isSome = true ∧
    (updatePersonClassic dbJohn 0 ⟨none, some (some 200), none, none, none⟩).2 =
      Except.error "save failed" := ⟨rfl, rfl⟩

/-- C2 (amended): when no record has the id, the update rejects rather
than resolving; when the id exists and the merged document passes
schema validation and the unique-email index, it resolves with the
updated record. -/
theorem updatePersonClassic_spec (db : DB) (personId : Nat) (u : Updates) :
    (findById db personId = none →
      updatePersonClassic db personId u = (db, Except.error "Person with ID not found")) ∧
    (∀ p, findById db personId = some p →
      validatePerson (applyUpdates p u) = true →
      emailTakenByOther db (applyUpdates p u).id (applyUpdates p u).email = false →
      updatePersonClassic db personId u =
        (replacePerson db (applyUpdates p u), Except.ok (applyUpdates p u))) := by
  constructor
  · intro h; simp [updatePersonClassic, h]
  · intro p hp hv he
    simp [updatePersonClassic, hp, saveExisting, hv, he]

/-- Witness for C2 (amended) at concrete inputs. -/
theorem updatePersonClassic_spec_witness :
    updatePersonClassic dbJohn 5 ⟨none, none, none, none, none⟩ =
      (dbJohn, Except.error "Person with ID not found") ∧
    updatePersonClassic dbJohn 0 ⟨none, some (some 31), none, none, none⟩ =
      (replacePerson dbJohn (applyUpdates johnDoePerson ⟨none, some (some 31), none, none, none⟩),
        Except.ok (applyUpdates johnDoePerson ⟨none, some (some 31), none, none, none⟩)) :=
  ⟨(updatePersonClassic_spec dbJohn 5 ⟨none, none, none, none, none⟩).1 rfl,
   (updatePersonClassic_spec dbJohn 0 ⟨none, some (some 31), none, none, none⟩).2
     johnDoePerson rfl (by decide) (by decide)⟩

/-- Counterexample to C5 as stated: with the empty name the operation
rejects even though no record matches (the claim says it resolves
null); with a non-empty name matching no record but an out-of-range
age, the client-side update validators reject instead of resolving
null; and with a matching name and an out-of-range age it likewise
rejects instead of resolving with the post-update document. -/
theorem findOneAndUpdateAge_counterexample :
    (findOneAndUpdateAge ⟨[], 0⟩ "" 20).2 = Except.error "personName is required" ∧
    ((⟨[], 0⟩ : DB).people.find? (fun p => p.name == "Ghost") = none ∧
      (findOneAndUpdateAge ⟨[], 0⟩ "Ghost" 500).2 = Except.error "validation failed") ∧
    ((dbJohn.people.find? fun p => p.name == "John Doe").isSome = true ∧
      (findOneAndUpdateAge dbJohn "John Doe" 500).2 = Except.error "validation failed") :=
  ⟨rfl, ⟨rfl, rfl⟩, rfl, rfl⟩

/-- C5 (amended): the operation casts and validates the age update on
the client before the query is sent, so an empty name or an age
outside 0–120 is rejected regardless of any match; for a non-empty
name and an in-range age it is a single find-one-and-update on the
name — no match resolves null (not an error) and a match resolves
with the post-update document. -/
theorem findOneAndUpdateAge_spec (db : DB) (nm : String) (a : Int) (hnm : nm ≠ "")
    (h0 : 0 ≤ a) (h1 : a ≤ 120) :
    ((db.people.find? fun p => p.name == nm) = none →
      findOneAndUpdateAge db nm a = (db, Except.ok none)) ∧
    (∀ p, (db.people.find? fun p => p.name == nm) = some p →
      findOneAndUpdateAge db nm a =
        (replacePerson db { p with age := some a },
          Except.ok (some { p with age := some a }))) ∧
    (∀ b : Int, ¬ (0 ≤ b ∧ b ≤ 120) →
      findOneAndUpdateAge db nm b = (db, Except.error "validation failed")) := by
  have hok : ageOk (some a) = true := by simp [ageOk, h0, h1]
  refine ⟨?_, ?_, ?_⟩
  · intro h; simp [findOneAndUpdateAge, hnm, hok, h]
  · intro p hp
    simp [findOneAndUpdateAge, hnm, hok, hp]
  · intro b hbad
    have hbad2 : ageOk (some b) = false := by
      simp only [ageOk, Bool.and_eq_false_iff, decide_eq_false_iff_not]
      omega
    simp [findOneAndUpdateAge, hnm, hbad2]

/-- Witness for C5 (amended) at concrete inputs. -/
theorem findOneAndUpdateAge_spec_witness :
    findOneAndUpdateAge ⟨[], 0⟩ "Jane Smith" 26 = (⟨[], 0⟩, Except.ok none) ∧
    findOneAndUpdateAge dbJohn "John Doe" 31 =
      (replacePerson dbJohn { johnDoePerson with age := some 31 },
        Except.ok (some { johnDoePerson with age := some 31 })) ∧
    findOneAndUpdateAge dbJohn "John Doe" 500 = (dbJohn, Except.error "validation failed") :=
  ⟨(findOneAndUpdateAge_spec ⟨[], 0⟩ "Jane Smith" 26 (by decide) (by decide) (by decide)).1 rfl,
   (findOneAndUpdateAge_spec dbJohn "John Doe" 31 (by decide) (by decide) (by decide)).2.1
     johnDoePerson rfl,
   (findOneAndUpdateAge_spec dbJohn "John Doe" 31 (by decide) (by decide) (by decide)).2.2
     500 (by decide)⟩

/-- Counterexample to C8 as stated: with the empty name — which no
record matches — the operation rejects instead of resolving with a
deleted count of 0. -/
theorem deleteManyByName_counterexample :
    (⟨[], 0⟩ : DB).people.countP (fun p => p.name == "") = 0 ∧
    (deleteManyByName ⟨[], 0⟩ "").2 = Except.error "Name is required for deletion" :=
  ⟨rfl, rfl⟩

/-- Counting helper: matches plus survivors of the deletion add up to
the whole collection. -/
theorem countP_name_add_length_filter (l : List Person) (nm : String) :
    l.countP (fun p => p.name == nm) + (l.filter fun p => p.name != nm).length = l.length := by
  induction l with
  | nil => rfl
  | cons a l ih =>
    by_cases h : a.name = nm
    · simp [List.countP_cons, List.filter_cons, h]
      omega
    · simp [List.countP_cons, List.filter_cons, h]
      omega

/-- C8 (amended): for every non-empty name, the deletion keeps exactly
the non-matching records (all unchanged, by multiplicity), removes
every matching record, and resolves with a deleted count equal to the
number of matching records. -/
theorem deleteManyByName_spec (db : DB) (nm : String) (h : nm ≠ "") :
    (deleteManyByName db nm).1.people = (db.people.filter fun p => p.name != nm) ∧
    (deleteManyByName db nm).1.nextId = db.nextId ∧
    (∀ p : Person, p.name = nm → p ∉ (deleteManyByName db nm).1.people) ∧
    (∀ p : Person, p.name ≠ nm →
      (deleteManyByName db nm).1.people.count p = db.people.count p) ∧
    (deleteManyByName db nm).2 = Except.ok (db.people.countP fun p => p.name == nm) ∧
    (db.people.countP fun p => p.name == nm) + (deleteManyByName db nm).1.people.length =
      db.people.length := by
  have hres : (deleteManyByName db nm).1.people = (db.people.filter fun p => p.name != nm) := by
    simp [deleteManyByName, h]
  refine ⟨hres, by simp [deleteManyByName, h], ?_, ?_, by simp [deleteManyByName, h], ?_⟩
  · intro p hp hmem
    rw [hres, List.mem_filter] at hmem
    rw [hp] at hmem
    simp at hmem
  · intro p hp
    rw [hres]
    exact List.count_filter (by simp [bne, hp])
  · rw [hres]
    exact countP_name_add_length_filter db.people nm

/-- A three-record collection for the deletion witness. -/
def dbThree : DB :=
  ⟨[⟨0, "Mary", none, [], none, true⟩, ⟨1, "John", none, [], none, true⟩,
    ⟨2, "Mary", none, [], none, true⟩], 3⟩

/-- Witness for C8 (amended) at concrete inputs. -/
theorem deleteManyByName_spec_witness :
    (deleteManyByName dbThree "Mary").1.people = [⟨1, "John", none, [], none, true⟩] ∧
    (deleteManyByName dbThree "Mary").2 = Except.ok 2 := by
  have h := deleteManyByName_spec dbThree "Mary" (by decide)
  exact ⟨by rw [h.1]; rfl, by rw [h.2.2.2.2.1]; rfl⟩

/-! ## The email uniqueness invariant (C7) -/

/-- One service operation, the step alphabet for reachability. -/
inductive Op where
  | create (pd : PersonInput)
  | createMany (pds : List PersonInput)
  | updateClassic (personId : Nat) (u : Updates)
  | setAge (nm : String) (a : Int)
  | deleteById (personId : Nat)
  | deleteMany (nm : String)

/-- The collection state after running one service operation (a
rejected operation leaves the state it produced so far). -/
def applyOp (db : DB) : Op → DB
  | Op.create pd => (createAndSavePerson db pd).1
  | Op.createMany pds => (createManyPeople db pds).1
  | Op.updateClassic personId u => (updatePersonClassic db personId u).1
  | Op.setAge nm a => (findOneAndUpdateAge db nm a).1
  | Op.deleteById personId => (deletePersonById db personId).1
  | Op.deleteMany nm => (deleteManyByName db nm).1

/-- The relation "these two documents do not share a non-null email". -/
def NoSharedEmail (p q : Person) : Prop :=
  ∀ e, p.email = some e → q.email ≠ some e

/-- No two stored documents share a non-null email. -/
def EmailsUnique (db : DB) : Prop :=
  db.people.Pairwise NoSharedEmail

/-- The store invariant: the fresh counter bounds every id, ids are
distinct, and non-null emails are unique. -/
def DBInv (db : DB) : Prop :=
  (∀ p ∈ db.people, p.id < db.nextId) ∧ (db.people.map Person.id).Nodup ∧ EmailsUnique db

/-- Collection states reachable from the empty store through service
operations. -/
inductive Reachable : DB → Prop
  | init : Reachable ⟨[], 0⟩
  | step (db : DB) (op : Op) : Reachable db → Reachable (applyOp db op)

/-- `NoSharedEmail` is symmetric. -/
theorem noSharedEmail_symm : Symmetric NoSharedEmail := by
  intro p q h e hq hp
  exact h e hp hq

/-- `saveNew` with a fresh id preserves the invariant. -/
theorem DBInv_saveNew {db : DB} {p : Person} (hinv : DBInv db) (hid : p.id = db.nextId) :
    DBInv (saveNew db p).1 := by
  obtain ⟨hfresh, hnodup, huniq⟩ := hinv
  unfold saveNew
  split
  · rename_i hc
    simp only [Bool.and_eq_true, Bool.not_eq_true'] at hc
    refine ⟨?_, ?_, ?_⟩
    · intro q hq
      rcases List.mem_append.mp hq with hq | hq
      · exact Nat.lt_succ_of_lt (hfresh q hq)
      · rw [List.mem_singleton.mp hq, hid]
        exact Nat.lt_succ_self _
    · show ((db.people ++ [p]).map Person.id).Nodup
      rw [List.map_append, List.nodup_append]
      refine ⟨hnodup, by simp, ?_⟩
      intro a ha hb
      rw [List.map_singleton, List.mem_singleton] at hb
      obtain ⟨q, hq, rfl⟩ := List.mem_map.mp ha
      have := hfresh q hq
      rw [hb, hid] at this
      omega
    · show (db.people ++ [p]).Pairwise NoSharedEmail
      rw [List.pairwise_append]
      refine ⟨huniq, by simp, ?_⟩
      intro x hx b hb
      rw [List.mem_singleton.mp hb]
      intro e hx1 hp1
      have hfalse := hc.2
      rw [hp1] at hfalse
      rw [show emailTaken db (some e) = db.people.any (fun q => q.email == some e) from rfl,
        List.any_eq_false] at hfalse
      exact hfalse x hx (by simp [hx1])
  · exact ⟨hfresh, hnodup, huniq⟩

/-- `createAndSavePerson` preserves the invariant. -/
theorem DBInv_create {db : DB} (pd : PersonInput) (hinv : DBInv db) :
    DBInv (createAndSavePerson db pd).1 := by
  unfold createAndSavePerson
  cases pd.name with
  | none => exact hinv
  | some n =>
    by_cases hne : n = ""
    · simp only [hne, if_pos rfl]
      exact hinv
    · simp only [if_neg hne]
      exact DBInv_saveNew hinv rfl

/-- `createOne` preserves the invariant. -/
theorem DBInv_createOne {db : DB} (pd : PersonInput) (hinv : DBInv db) :
    DBInv (createOne db pd).1 :=
  DBInv_saveNew hinv rfl

/-- The `Person.create` loop preserves the invariant. -/
theorem DBInv_createManyGo : ∀ (pds : List PersonInput) (db : DB) (acc : List Person),
    DBInv db → DBInv (createManyGo db pds acc).1
  | [], db, acc, hinv => hinv
  | pd :: rest, db, acc, hinv => by
    unfold createManyGo
    rcases hr : createOne db pd with ⟨db1, r⟩
    have hdb1 : DBInv db1 := by
      have := DBInv_createOne pd hinv
      rw [hr] at this
      exact this
    cases r with
    | ok p => exact DBInv_createManyGo rest db1 (p :: acc) hdb1
    | error e => exact hdb1

/-- `createManyPeople` preserves the invariant. -/
theorem DBInv_createMany {db : DB} (pds : List PersonInput) (hinv : DBInv db) :
    DBInv (createManyPeople db pds).1 := by
  unfold createManyPeople
  split
  · exact hinv
  · exact DBInv_createManyGo pds db [] hinv

/-- Replacing one stored document leaves the stored id list unchanged. -/
theorem replace_map_id (l : List Person) (p' : Person) :
    ((l.map fun q => if q.id = p'.id then p' else q).map Person.id) = l.map Person.id := by
  rw [List.map_map]
  apply List.map_congr_left
  intro q _
  by_cases h : q.id = p'.id <;> simp [h, Function.comp]

/-- Replacing the document holding `p'.id` preserves email uniqueness,
provided no other stored document holds `p'.email`. -/
theorem emailsUnique_replace : ∀ (l : List Person) (p' : Person),
    (l.map Person.id).Nodup → l.Pairwise NoSharedEmail →
    (∀ q ∈ l, q.id ≠ p'.id → NoSharedEmail q p') →
    (l.map fun q => if q.id = p'.id then p' else q).Pairwise NoSharedEmail := by
  intro l p' hnodup huniq hq
  induction l with
  | nil => exact List.Pairwise.nil
  | cons a l ih =>
    rw [List.map_cons, List.pairwise_cons]
    rw [List.map_cons, List.nodup_cons] at hnodup
    rw [List.pairwise_cons] at huniq
    by_cases ha : a.id = p'.id
    · rw [if_pos ha]
      have hothers : ∀ q ∈ l, q.id ≠ p'.id := by
        intro q hql hqid
        exact hnodup.1 (List.mem_map.mpr ⟨q, hql, hqid.trans ha.symm⟩)
      have hmapeq : (l.map fun q => if q.id = p'.id then p' else q) = l := by
        have : ∀ q ∈ l, (if q.id = p'.id then p' else q) = q := by
          intro q hql
          rw [if_neg (hothers q hql)]
        rw [List.map_congr_left this]
        exact List.map_id l
      rw [hmapeq]
      refine ⟨?_, huniq.2⟩
      intro b hb
      exact noSharedEmail_symm (hq b (List.mem_cons_of_mem a hb) (hothers b hb))
    · rw [if_neg ha]
      refine ⟨?_, ih hnodup.2 huniq.2 (fun q hql h2 => hq q (List.mem_cons_of_mem a hql) h2)⟩
      intro b hb
      obtain ⟨q, hql, rfl⟩ := List.mem_map.mp hb
      by_cases hqid : q.id = p'.id
      · rw [if_pos hqid]
        exact hq a (List.mem_cons_self a l) ha
      · rw [if_neg hqid]
        exact huniq.1 q hql

/-- `saveExisting` preserves the invariant. -/
theorem DBInv_saveExisting {db : DB} {p' : Person} (hinv : DBInv db) :
    DBInv (saveExisting db p').1 := by
  obtain ⟨hfresh, hnodup, huniq⟩ := hinv
  unfold saveExisting
  split
  · rename_i hc
    simp only [Bool.and_eq_true, Bool.not_eq_true'] at hc
    have hguard : ∀ q ∈ db.people, q.id ≠ p'.id → NoSharedEmail q p' := by
      intro q hq hqid e hqe hpe
      have hfalse := hc.2
      rw [hpe] at hfalse
      rw [show emailTakenByOther db p'.id (some e) =
          db.people.any (fun r => (r.id != p'.id) && (r.email == some e)) from rfl,
        List.any_eq_false] at hfalse
      exact hfalse q hq (by simp [hqid, hqe])
    refine ⟨?_, ?_, ?_⟩
    · intro q hq
      obtain ⟨r, hr, rfl⟩ := List.mem_map.mp hq
      by_cases h : r.id = p'.id
      · rw [if_pos h]
        show p'.id < db.nextId
        rw [← h]
        exact hfresh r hr
      · rw [if_neg h]
        exact hfresh r hr
    · show (((db.people.map fun q => if q.id = p'.id then p' else q)).map Person.id).Nodup
      rw [replace_map_id]
      exact hnodup
    · exact emailsUnique_replace db.people p' hnodup huniq hguard
  · exact ⟨hfresh, hnodup, huniq⟩

/-- `updatePersonClassic` preserves the invariant. -/
theorem DBInv_updateClassic {db : DB} (personId : Nat) (u : Updates) (hinv : DBInv db) :
    DBInv (updatePersonClassic db personId u).1 := by
  unfold updatePersonClassic
  cases findById db personId with
  | none => exact hinv
  | some p => exact DBInv_saveExisting hinv

/-- `findOneAndUpdateAge` preserves the invariant. -/
theorem DBInv_setAge {db : DB} (nm : String) (a : Int) (hinv : DBInv db) :
    DBInv (findOneAndUpdateAge db nm a).1 := by
  obtain ⟨hfresh, hnodup, huniq⟩ := hinv
  unfold findOneAndUpdateAge
  split
  · exact ⟨hfresh, hnodup, huniq⟩
  · split
    · exact ⟨hfresh, hnodup, huniq⟩
    · split
      · exact ⟨hfresh, hnodup, huniq⟩
      · rename_i p hf
        have hpmem : p ∈ db.people := List.mem_of_find?_eq_some hf
        refine ⟨?_, ?_, ?_⟩
        · intro q hq
          obtain ⟨r, hr, rfl⟩ := List.mem_map.mp hq
          by_cases h : r.id = p.id
          · rw [if_pos h]
            show p.id < db.nextId
            rw [← h]
            exact hfresh r hr
          · rw [if_neg h]
            exact hfresh r hr
        · show (((db.people.map fun q =>
              if q.id = ({ p with age := some a } : Person).id then { p with age := some a }
              else q)).map Person.id).Nodup
          rw [replace_map_id]
          exact hnodup
        · apply emailsUnique_replace db.people _ hnodup huniq
          intro q hq hqid e hqe hpe
          have hqp : q ≠ p := by
            intro h
            exact hqid (by rw [h])
          have := List.Pairwise.forall noSharedEmail_symm huniq hq hpmem hqp
          exact this e hqe hpe

/-- Deletion by id preserves the invariant. -/
theorem DBInv_deleteById {db : DB} (personId : Nat) (hinv : DBInv db) :
    DBInv (deletePersonById db personId).1 := by
  obtain ⟨hfresh, hnodup, huniq⟩ := hinv
  unfold deletePersonById
  cases findById db personId with
  | none => exact ⟨hfresh, hnodup, huniq⟩
  | some p =>
    have hsub : (db.people.eraseP fun q => q.id == personId).Sublist db.people :=
      List.eraseP_sublist _
    exact ⟨fun q hq => hfresh q (hsub.subset hq),
      List.Nodup.sublist (hsub.map Person.id) hnodup,
      List.Pairwise.sublist hsub huniq⟩

/-- Deletion by name preserves the invariant. -/
theorem DBInv_deleteMany {db : DB} (nm : String) (hinv : DBInv db) :
    DBInv (deleteManyByName db nm).1 := by
  obtain ⟨hfresh, hnodup, huniq⟩ := hinv
  unfold deleteManyByName
  split
  · exact ⟨hfresh, hnodup, huniq⟩
  · have hsub : (db.people.filter fun p => p.name != nm).Sublist db.people :=
      List.filter_sublist _
    exact ⟨fun q hq => hfresh q (hsub.subset hq),
      List.Nodup.sublist (hsub.map Person.id) hnodup,
      List.Pairwise.sublist hsub huniq⟩

/-- Every service operation preserves the store invariant. -/
theorem DBInv_applyOp (db : DB) (op : Op) (hinv : DBInv db) : DBInv (applyOp db op) := by
  cases op with
  | create pd => exact DBInv_create pd hinv
  | createMany pds => exact DBInv_createMany pds hinv
  | updateClassic personId u => exact DBInv_updateClassic personId u hinv
  | setAge nm a => exact DBInv_setAge nm a hinv
  | deleteById personId => exact DBInv_deleteById personId hinv
  | deleteMany nm => exact DBInv_deleteMany nm hinv

/-- C7: every operation preserves the store invariant, so every
reachable collection state has pairwise-distinct non-null emails; and
inserting a record whose (falsy-coerced, normalized) email is already
held by a stored record is rejected with the state unchanged. -/
theorem email_uniqueness_invariant :
    (∀ db op, DBInv db → DBInv (applyOp db op)) ∧
    (∀ db, Reachable db → EmailsUnique db) ∧
    (∀ db pd e q, q ∈ db.people → q.email = some (normalizeEmail e) →
      jsOrNullEmail pd.email = some e →
      (createAndSavePerson db pd).1 = db ∧
      ∃ msg, (createAndSavePerson db pd).2 = Except.error msg) := by
  refine ⟨DBInv_applyOp, ?_, ?_⟩
  · have hdb : ∀ db, Reachable db → DBInv db := by
      intro db h
      induction h with
      | init => exact ⟨by simp, by simp, List.Pairwise.nil⟩
      | step db op _ ih => exact DBInv_applyOp db op ih
    exact fun db h => (hdb db h).2.2
  · intro db pd e q hq hqe hpde
    unfold createAndSavePerson
    cases pd.name with
    | none => exact ⟨rfl, _, rfl⟩
    | some n =>
      by_cases hne : n = ""
      · simp only [hne, if_pos rfl]
        exact ⟨rfl, _, rfl⟩
      · simp only [if_neg hne]
        have htaken : emailTaken db ((jsOrNullEmail pd.email).map normalizeEmail) = true := by
          rw [hpde]
          show db.people.any (fun r => r.email == some (normalizeEmail e)) = true
          rw [List.any_eq_true]
          exact ⟨q, hq, by simp [hqe]⟩
        unfold saveNew
        rw [htaken]
        simp

/-- Witness for C7 at concrete inputs: the state after one create
operation is reachable and email-unique, and re-inserting the same
email (differing in case and surrounding whitespace) is rejected. -/
theorem email_uniqueness_invariant_witness :
    EmailsUnique dbJohn ∧
    ((createAndSavePerson dbJohn
        ⟨some "Johnny Doe", none, none, some "John@example.com ", none⟩).1 = dbJohn ∧
      ∃ msg, (createAndSavePerson dbJohn
        ⟨some "Johnny Doe", none, none, some "John@example.com ", none⟩).2 =
          Except.error msg) :=
  ⟨email_uniqueness_invariant.2.1 dbJohn
      (Reachable.step ⟨[], 0⟩ (Op.create johnDoeInput) Reachable.init),
   email_uniqueness_invariant.2.2 dbJohn
      ⟨some "Johnny Doe", none, none, some "John@example.com ", none⟩
      "John@example.com " johnDoePerson (by decide) (by decide) (by decide)⟩

end MongooseCheckpoint
